import Mathlib

/-!
Verification development for the snippet lifecycle manager of the
orca-snippets-plugin repository (`src/snippet-manager.ts`).

The embedding is shallow: the `SnippetManager` class becomes a record
`ManagerState` (the `snippets` map, the `injectedElements` map, and the
persisted blob), and each method becomes a Lean function on that state.
JavaScript `Map`s are modelled as association lists with JS `Map`
semantics (`set` replaces in place or appends, `delete`/lookups key on
string equality).  `Date.now()` and `Math.random()` results enter as
explicit parameters.  The persistence adapter (`orca.plugins.setData`)
is modelled by a `storage` field plus a `saveFails` flag standing for a
rejected write.  Platform string primitives used by the source
(`String.prototype.includes`, `toLowerCase`, `trim` truthiness) are
modelled at the character-list level; the DOM keyword table is copied
verbatim from the source.
-/

namespace OrcaSnippets

/-- Snippet type tag, `"css" | "js"` in the source interface. -/
inductive SnippetType where
  | css
  | js
deriving DecidableEq, Repr

/-- Rendering of the type tag back to its JSON string form. -/
def SnippetType.toStr : SnippetType → String
  | .css => "css"
  | .js => "js"

/-- The `Snippet` interface from `snippet-manager.ts` (lines 15-23). -/
structure Snippet where
  id : String
  name : String
  content : String
  type : SnippetType
  enabled : Bool
  createdAt : Nat
  updatedAt : Nat
deriving DecidableEq, Repr

/-- JS `Map.prototype.set` on an association list: replace the entry in
place when the key is present, append otherwise. -/
def mapSet {α : Type} (m : List (String × α)) (k : String) (v : α) :
    List (String × α) :=
  if m.any (fun p => p.1 == k) then
    m.map (fun p => if p.1 == k then (k, v) else p)
  else
    m ++ [(k, v)]

/-- JS `Map.prototype.delete`: drop the entry carrying the key.  On the
lists reachable through `mapSet` keys are unique, so the filter removes
exactly the one entry the real `Map` would. -/
def mapDelete {α : Type} (m : List (String × α)) (k : String) :
    List (String × α) :=
  m.filter (fun p => !(p.1 == k))

/-- A tracked DOM side effect: a `<style>` element holding the CSS text,
or the hidden `<div>` tracker attached for a JS snippet. -/
inductive InjectedElement where
  | style (content : String)
  | tracker (name : String)
deriving DecidableEq, Repr

/-- State of a `SnippetManager` instance: the `snippets` map, the
`injectedElements` map, and the blob last written through
`orca.plugins.setData` (`none` when nothing was written yet). -/
structure ManagerState where
  snippets : List (String × Snippet)
  injected : List (String × InjectedElement)
  storage : Option (List Snippet)
deriving DecidableEq, Repr

/-- A freshly constructed manager: both maps empty, nothing persisted. -/
def emptyState : ManagerState := ⟨[], [], none⟩

/-- Errors surfaced by the manager: the thrown
`new Error("Snippet ... not found")` and a rejected persistence write. -/
inductive ManagerError where
  | notFound (id : String)
  | persistence
deriving DecidableEq, Repr

/-- The `saveSnippets` method (lines 58-73): serialize
`Array.from(this.snippets.values())` and write it through the adapter. -/
def saveSnippets (st : ManagerState) : ManagerState :=
  { st with storage := some (st.snippets.map Prod.snd) }

/-- The DOM-access keyword table of `checkIfNeedsDOMReady`
(lines 101-114), copied verbatim. -/
def domKeywords : List String :=
  ["querySelector",
   "getElementById",
   "getElementsByClassName",
   "getElementsByTagName",
   "addEventListener",
   "MutationObserver",
   "document.body",
   "document.head",
   ".getBoundingClientRect",
   ".appendChild",
   ".insertBefore",
   ".classList"]

/-- ASCII lowering of one character; the fragment of JS `toLowerCase`
relevant to the ASCII-only keyword table. -/
def lowerChar (c : Char) : Char :=
  if 'A' ≤ c ∧ c ≤ 'Z' then Char.ofNat (c.toNat + 32) else c

/-- Lowercased character sequence of a string (JS `s.toLowerCase()`). -/
def toLowerChars (s : String) : List Char :=
  s.data.map lowerChar

/-- JS `String.prototype.includes`: the needle occurs as a contiguous
substring of the haystack. -/
def listIncludes (hay needle : List Char) : Bool :=
  (List.range (hay.length + 1)).any (fun i => needle.isPrefixOf (hay.drop i))

/-- The `checkIfNeedsDOMReady` method (lines 99-118): lowercase the code
and test whether any lowercased keyword occurs in it. -/
def checkIfNeedsDOMReady (code : String) : Bool :=
  let lowerCode := toLowerChars code
  domKeywords.any (fun keyword => listIncludes lowerCode (toLowerChars keyword))

/-- The `document.readyState` values distinguished by `injectSnippet`. -/
inductive ReadyState where
  | loading
  | interactive
  | complete
deriving DecidableEq, Repr

/-- When the `executeCode` closure of `injectSnippet` runs relative to
the injection call. -/
inductive ExecTiming where
  | immediate
  | onDOMContentLoaded
  | nextAnimationFrame
deriving DecidableEq, Repr

/-- The execution-timing decision of `injectSnippet` for a JS snippet
(lines 190-204): DOM-dependent code waits for `DOMContentLoaded` while
the document is loading, runs immediately when `readyState` is
`complete`, and is scheduled via `requestAnimationFrame` otherwise;
non-DOM code always runs immediately. -/
def jsExecutionTiming (code : String) (rs : ReadyState) : ExecTiming :=
  if checkIfNeedsDOMReady code then
    match rs with
    | .loading => .onDOMContentLoaded
    | .complete => .immediate
    | .interactive => .nextAnimationFrame
  else
    .immediate

/-- The `removeSnippet` method (lines 228-234): detach and forget the
tracked element for the id, a no-op when none is tracked. -/
def removeSnippet (els : List (String × InjectedElement)) (id : String) :
    List (String × InjectedElement) :=
  mapDelete els id

/-- DOM bookkeeping of the `injectSnippet` method (lines 150-223): the
prior element for the id is removed first, then a `<style>` element
(CSS) or a hidden tracker `<div>` (JS) is attached and recorded under
the snippet's id.  The JS execution itself is modelled separately by
`jsExecutionTiming`. -/
def injectSnippet (els : List (String × InjectedElement)) (s : Snippet) :
    List (String × InjectedElement) :=
  let els' := removeSnippet els s.id
  match s.type with
  | .css => mapSet els' s.id (.style s.content)
  | .js => mapSet els' s.id (.tracker s.name)

/-- The `cleanup` method (lines 89-94): remove every tracked element. -/
def cleanup (st : ManagerState) : ManagerState :=
  { st with injected := [] }

/-- Id generation of `addSnippet` and `importSnippets`:
`snippet-${now}-${randomSuffix}`. -/
def genId (now : Nat) (rand : String) : String :=
  "snippet-" ++ toString now ++ "-" ++ rand

/-- The caller-supplied fields of `addSnippet`
(`Omit<Snippet, "id" | "createdAt" | "updatedAt">`). -/
structure SnippetInput where
  name : String
  content : String
  type : SnippetType
  enabled : Bool
deriving DecidableEq, Repr

/-- The `addSnippet` method (lines 239-256): build the record with a
fresh id and `createdAt = updatedAt = now`, set it in the map, persist,
and inject when enabled.  A rejected write propagates after the map
mutation, before injection. -/
def addSnippet (st : ManagerState) (input : SnippetInput) (now : Nat)
    (rand : String) (saveFails : Bool) :
    ManagerState × Except ManagerError Snippet :=
  let newSnippet : Snippet :=
    { id := genId now rand
      name := input.name
      content := input.content
      type := input.type
      enabled := input.enabled
      createdAt := now
      updatedAt := now }
  let st := { st with snippets := mapSet st.snippets newSnippet.id newSnippet }
  if saveFails then
    (st, .error .persistence)
  else
    let st := saveSnippets st
    let st :=
      if newSnippet.enabled then
        { st with injected := injectSnippet st.injected newSnippet }
      else
        st
    (st, .ok newSnippet)

/-- The `updates` argument of `updateSnippet`
(`Partial<Omit<Snippet, "id" | "createdAt">>`); absent fields are
`none`. -/
structure SnippetUpdate where
  name : Option String := none
  content : Option String := none
  type : Option SnippetType := none
  enabled : Option Bool := none
  updatedAt : Option Nat := none
deriving DecidableEq, Repr

/-- The spread `{ ...snippet, ...updates, updatedAt: Date.now() }` of
`updateSnippet` (lines 270-274): supplied fields override, `id` and
`createdAt` are kept, and `updatedAt` is forced to `now` even when the
partial carried one. -/
def applyUpdate (s : Snippet) (u : SnippetUpdate) (now : Nat) : Snippet :=
  { id := s.id
    name := u.name.getD s.name
    content := u.content.getD s.content
    type := u.type.getD s.type
    enabled := u.enabled.getD s.enabled
    createdAt := s.createdAt
    updatedAt := now }

/-- The `updateSnippet` method (lines 261-288): throw when the id is
unknown; otherwise merge, set the map, persist, then unconditionally
re-evaluate injection (inject when the merged record is enabled, remove
otherwise).  A rejected write propagates after the map mutation and
before the injection step. -/
def updateSnippet (st : ManagerState) (id : String) (u : SnippetUpdate)
    (now : Nat) (saveFails : Bool) :
    ManagerState × Except ManagerError Snippet :=
  match st.snippets.lookup id with
  | none => (st, .error (.notFound id))
  | some s =>
    let updatedSnippet := applyUpdate s u now
    let st := { st with snippets := mapSet st.snippets id updatedSnippet }
    if saveFails then
      (st, .error .persistence)
    else
      let st := saveSnippets st
      let st :=
        if updatedSnippet.enabled then
          { st with injected := injectSnippet st.injected updatedSnippet }
        else
          { st with injected := removeSnippet st.injected id }
      (st, .ok updatedSnippet)

/-- The `toggleSnippet` method (lines 302-311): throw when the id is
unknown, otherwise update with the negated `enabled` flag. -/
def toggleSnippet (st : ManagerState) (id : String) (now : Nat)
    (saveFails : Bool) : ManagerState × Except ManagerError Snippet :=
  match st.snippets.lookup id with
  | none => (st, .error (.notFound id))
  | some s => updateSnippet st id { enabled := some (!s.enabled) } now saveFails

/-- The `deleteSnippet` method (lines 293-297): remove the injection,
delete the map entry, persist; no existence check is made. -/
def deleteSnippet (st : ManagerState) (id : String) (saveFails : Bool) :
    ManagerState × Except ManagerError Unit :=
  let st := { st with injected := removeSnippet st.injected id }
  let st := { st with snippets := mapDelete st.snippets id }
  if saveFails then
    (st, .error .persistence)
  else
    (saveSnippets st, .ok ())

/-- Display order of `getAllSnippets` (lines 317-323): ascending
`createdAt`, ties broken by ascending `updatedAt` (the comparator
returns `a.createdAt - b.createdAt` when those differ, else
`a.updatedAt - b.updatedAt`). -/
def snippetOrder (a b : Snippet) : Prop :=
  a.createdAt < b.createdAt ∨
    (a.createdAt = b.createdAt ∧ a.updatedAt ≤ b.updatedAt)

instance : DecidableRel snippetOrder := fun a b =>
  inferInstanceAs (Decidable (a.createdAt < b.createdAt ∨
    (a.createdAt = b.createdAt ∧ a.updatedAt ≤ b.updatedAt)))

/-- The `getAllSnippets` method (lines 316-324): the map's values sorted
with the comparator above.  JS `Array.prototype.sort` is a stable sort;
it is modelled by the stable `List.insertionSort`. -/
def getAllSnippets (st : ManagerState) : List Snippet :=
  List.insertionSort snippetOrder (st.snippets.map Prod.snd)

/-- The `getSnippet` method (lines 329-331). -/
def getSnippet (st : ManagerState) (id : String) : Option Snippet :=
  st.snippets.lookup id

/-- The data produced by `exportSnippets` (lines 336-348): the sorted
full collection, serialized for download.  The download plumbing
(`Blob`, object URL, anchor click) is outside the data model. -/
def exportSnippets (st : ManagerState) : List Snippet :=
  getAllSnippets st

/-- One parsed array entry of an import file.  Fields are `Option`s:
`none` is an absent (`undefined`) JSON field.  `type` stays a raw string
until validated. -/
structure ImportCandidate where
  name : Option String := none
  content : Option String := none
  type : Option String := none
  enabled : Option Bool := none
  createdAt : Option Nat := none
  updatedAt : Option Nat := none
deriving DecidableEq, Repr

/-- JS truthiness test on an optional string field: `undefined` and the
empty string are falsy. -/
def jsFalsyStr : Option String → Bool
  | none => true
  | some s => s == ""

/-- The summary returned by `importSnippets`. -/
structure ImportResult where
  success : Nat
  failed : Nat
  errors : List String
deriving DecidableEq, Repr

/-- Outcome of `JSON.parse` on the file text, as seen by
`importSnippets`: a parse exception, a parsed non-array value (with its
JS `.length` property, `none` when it has none), or an array of
candidates. -/
inductive ImportInput where
  | parseFailure (msg : String)
  | notArray (lengthProp : Option Nat)
  | array (items : List ImportCandidate)

/-- JS `x || 1` on the `.length` property used for the `failed` count of
a top-level import failure: `undefined` and `0` give `1`. -/
def jsOrOne : Option Nat → Nat
  | none => 1
  | some 0 => 1
  | some n => n

/-- Per-candidate validation of `importSnippets` (lines 372-378): fail
when `name`, `content` or `type` is falsy, or `type` is neither `"css"`
nor `"js"`; the returned message is the thrown one. -/
def candidateError (c : ImportCandidate) : Option String :=
  if jsFalsyStr c.name || jsFalsyStr c.content || jsFalsyStr c.type then
    some "Invalid snippet: missing required fields"
  else if c.type ≠ some "css" ∧ c.type ≠ some "js" then
    some ("Invalid snippet type: " ++ c.type.getD "undefined")
  else
    none

/-- The `snippet.name || "unknown"` fallback used in per-item error
messages. -/
def jsNameOrUnknown (name : Option String) : String :=
  match name with
  | none => "unknown"
  | some s => if s == "" then "unknown" else s

/-- The record built for one valid candidate (lines 380-393): fresh id,
fields copied, `enabled ?? false`, and `createdAt`/`updatedAt` taken
from the file when present, else the synthesized
`baseTime = now + success * 1000`. -/
def importRecord (c : ImportCandidate) (now : Nat) (rand : String)
    (success : Nat) : Snippet :=
  let baseTime := now + success * 1000
  { id := genId now rand
    name := c.name.getD ""
    content := c.content.getD ""
    type := if c.type == some "js" then .js else .css
    enabled := c.enabled.getD false
    createdAt := c.createdAt.getD baseTime
    updatedAt := c.updatedAt.getD baseTime }

/-- The per-item loop of `importSnippets` (lines 369-406).  The loop is
synchronous, so the repeated `Date.now()` reads are modelled by the one
value `now`; `Math.random()` draws are the successive entries of
`rands`, consumed only on the success path where the source calls it. -/
def importLoop (st : ManagerState) (items : List ImportCandidate)
    (now : Nat) (rands : List String) (success failed : Nat)
    (errors : List String) : ManagerState × Nat × Nat × List String :=
  match items with
  | [] => (st, success, failed, errors)
  | c :: rest =>
    match candidateError c with
    | some msg =>
      importLoop st rest now rands success (failed + 1)
        (errors ++ ["Snippet \"" ++ jsNameOrUnknown c.name ++ "\": " ++ msg])
    | none =>
      let newSnippet := importRecord c now (rands.headD "r") success
      let st := { st with
        snippets := mapSet st.snippets newSnippet.id newSnippet }
      let st :=
        if newSnippet.enabled then
          { st with injected := injectSnippet st.injected newSnippet }
        else
          st
      importLoop st rest now rands.tail (success + 1) failed errors

/-- The `importSnippets` method (lines 353-431) after file reading: a
top-level parse failure resolves with zero successes,
`importedSnippets.length || 1` failures (the array stayed empty on a
parse exception) and the exception message as the one error entry;
otherwise the per-item loop runs and the collection is persisted when at
least one item succeeded. -/
def importSnippets (st : ManagerState) (input : ImportInput) (now : Nat)
    (rands : List String) : ManagerState × ImportResult :=
  match input with
  | .parseFailure msg => (st, ⟨0, 1, [msg]⟩)
  | .notArray lengthProp =>
    (st, ⟨0, jsOrOne lengthProp,
      ["Invalid file format: expected an array of snippets"]⟩)
  | .array items =>
    let r := importLoop st items now rands 0 0 []
    let st' := if r.2.1 > 0 then saveSnippets r.1 else r.1
    (st', ⟨r.2.1, r.2.2.1, r.2.2.2⟩)

/-- A JSON round trip of one exported record: every field is present in
the re-parsed candidate. -/
def snippetToCandidate (s : Snippet) : ImportCandidate :=
  { name := some s.name
    content := some s.content
    type := some s.type.toStr
    enabled := some s.enabled
    createdAt := some s.createdAt
    updatedAt := some s.updatedAt }

/-- JS whitespace characters relevant to `String.prototype.trim`. -/
def jsWhitespace (c : Char) : Bool :=
  c == ' ' || c == '\t' || c == '\n' || c == '\r'

/-- Truthiness of `s.trim()`: the trimmed string is empty exactly when
every character of `s` is whitespace. -/
def trimmedEmpty (s : String) : Bool :=
  (s.data.filter (fun c => !(jsWhitespace c))).isEmpty

/-- The `handleAdd` handler of the edit dialog (lines 1398-1415): when
the trimmed name or trimmed content is empty it notifies an error and
returns without calling `addSnippet`; otherwise it calls `addSnippet`.
The returned flag records whether a snippet was added. -/
def handleAdd (st : ManagerState) (name content : String)
    (type : SnippetType) (enabled : Bool) (now : Nat) (rand : String) :
    ManagerState × Bool :=
  if trimmedEmpty name || trimmedEmpty content then
    (st, false)
  else
    ((addSnippet st ⟨name, content, type, enabled⟩ now rand false).1, true)

/-- The persisted blob as `init` (lines 41-53) sees it: absent, a blob
`JSON.parse` throws on (swallowed, the store stays empty), or a parsed
record array. -/
inductive StoredData where
  | absent
  | corrupt
  | parsed (arr : List Snippet)

/-- The `init` method: populate the map from the parsed array (a
`forEach` of `set` calls); any load failure is swallowed and the manager
starts empty. -/
def init (d : StoredData) : ManagerState :=
  match d with
  | .absent => emptyState
  | .corrupt => emptyState
  | .parsed arr =>
    { emptyState with
      snippets := arr.foldl (fun m s => mapSet m s.id s) [] }

/-- Number of entries of an association list carrying a given key; on a
`Map`-shaped list this is `1` when the key is tracked and `0` when not. -/
def countKey {α : Type} (m : List (String × α)) (k : String) : Nat :=
  m.countP (fun p => p.1 == k)

/-- The timestamp invariant of the data model: every stored record has
`updatedAt >= createdAt`. -/
def storeWF (st : ManagerState) : Prop :=
  ∀ p ∈ st.snippets, p.2.createdAt ≤ p.2.updatedAt

/-- Timestamp discipline of an import candidate under which the record
built by `importRecord` satisfies the timestamp invariant: both
timestamps supplied and consistent, or both absent (then both default to
the same `baseTime`). -/
def candidateTimesOK (c : ImportCandidate) : Bool :=
  match c.createdAt, c.updatedAt with
  | some a, some b => a ≤ b
  | none, none => true
  | _, _ => false

/-- The records `importLoop` builds for a list of candidates that all
pass validation, consuming `rands` and the success counter exactly as
the loop does. -/
def importedRecords (cs : List ImportCandidate) (now : Nat)
    (rands : List String) (success : Nat) : List Snippet :=
  match cs with
  | [] => []
  | c :: rest =>
    importRecord c now (rands.headD "r") success ::
      importedRecords rest now rands.tail (success + 1)

instance (st : ManagerState) : Decidable (storeWF st) :=
  inferInstanceAs (Decidable (∀ p ∈ st.snippets, p.2.createdAt ≤ p.2.updatedAt))

instance : IsTotal Snippet snippetOrder :=
  ⟨by intro a b; unfold snippetOrder; omega⟩

instance : IsTrans Snippet snippetOrder :=
  ⟨by intro a b c hab hbc; unfold snippetOrder at *; omega⟩

/-! Helper lemmas about the association-list `Map` model. -/

theorem lookup_none_forall {α : Type} {m : List (String × α)} {k : String}
    (h : m.lookup k = none) : ∀ p ∈ m, (p.1 == k) = false := by
  induction m with
  | nil => simp
  | cons q rest ih =>
    obtain ⟨k', v⟩ := q
    rw [List.lookup_cons] at h
    intro p hp
    cases hq : (k == k') with
    | true => simp [hq] at h
    | false =>
      simp only [hq] at h
      rcases List.mem_cons.mp hp with hp | hp
      · subst hp
        simp only [beq_eq_false_iff_ne] at hq ⊢
        exact fun hk => hq hk.symm
      · exact ih h p hp

theorem lookup_none_of_forall {α : Type} {m : List (String × α)} {k : String}
    (h : ∀ p ∈ m, (p.1 == k) = false) : m.lookup k = none := by
  induction m with
  | nil => rfl
  | cons q rest ih =>
    obtain ⟨k', v⟩ := q
    rw [List.lookup_cons]
    have hq := h (k', v) (List.mem_cons_self _ _)
    simp only at hq
    have : (k == k') = false := by
      simp only [beq_eq_false_iff_ne] at hq ⊢
      exact fun hk => hq hk.symm
    simp only [this]
    exact ih (fun p hp => h p (List.mem_cons_of_mem _ hp))

theorem any_key_eq_false_iff {α : Type} {m : List (String × α)} {k : String} :
    (m.any (fun p => p.1 == k)) = false ↔ ∀ p ∈ m, (p.1 == k) = false := by
  simp [List.any_eq_false]

theorem mapSet_of_fresh {α : Type} {m : List (String × α)} {k : String}
    (v : α) (h : m.any (fun p => p.1 == k) = false) :
    mapSet m k v = m ++ [(k, v)] := by
  simp [mapSet, h]

theorem countP_ext {α : Type} {p q : α → Bool} {l : List α}
    (h : ∀ a ∈ l, p a = q a) : l.countP p = l.countP q := by
  induction l with
  | nil => rfl
  | cons a rest ih =>
    rw [List.countP_cons, List.countP_cons,
      ih (fun b hb => h b (List.mem_cons_of_mem _ hb)),
      h a (List.mem_cons_self _ _)]

theorem countKey_append {α : Type} (m l : List (String × α)) (k : String) :
    countKey (m ++ l) k = countKey m k + countKey l k :=
  List.countP_append _ _ _

theorem countKey_mapDelete_self {α : Type} (m : List (String × α))
    (k : String) : countKey (mapDelete m k) k = 0 := by
  rw [countKey, List.countP_eq_zero]
  intro p hp
  have := (List.mem_filter.mp hp).2
  simp only [Bool.not_eq_true'] at this
  simp [this]

theorem countKey_mapDelete_other {α : Type} (m : List (String × α))
    {k k' : String} (h : k' ≠ k) :
    countKey (mapDelete m k) k' = countKey m k' := by
  induction m with
  | nil => rfl
  | cons q rest ih =>
    by_cases hq : q.1 = k
    · have h1 : (q.1 == k) = true := by simp [hq]
      have h2 : (q.1 == k') = false := by simp [hq, Ne.symm h]
      simp [mapDelete, countKey, List.filter, h1, List.countP_cons, h2] at *
      exact ih
    · have h1 : (q.1 == k) = false := by simp [hq]
      simp [mapDelete, countKey, List.filter, h1, List.countP_cons] at *
      rw [ih]

theorem countKey_mapSet_other {α : Type} (m : List (String × α))
    {k k' : String} (v : α) (h : k' ≠ k) :
    countKey (mapSet m k v) k' = countKey m k' := by
  unfold mapSet
  by_cases hany : m.any (fun p => p.1 == k) = true
  · simp only [hany, if_true, countKey, List.countP_map]
    refine countP_ext (fun p _ => ?_)
    by_cases hp : p.1 = k
    · have h1 : (p.1 == k) = true := by simp [hp]
      simp [Function.comp, h1, hp, Ne.symm h]
    · have h1 : (p.1 == k) = false := by simp [hp]
      simp [Function.comp, h1]
  · simp only [Bool.not_eq_true] at hany
    rw [if_neg (by simp [hany]), countKey_append]
    have h2 : ((k, v).1 == k') = false := by simp [Ne.symm h]
    simp [countKey, List.countP_cons, h2]

theorem mem_mapSet {α : Type} {m : List (String × α)} {k : String} {v : α}
    {p : String × α} (hp : p ∈ mapSet m k v) : p = (k, v) ∨ p ∈ m := by
  unfold mapSet at hp
  by_cases hany : m.any (fun q => q.1 == k) = true
  · simp only [hany, if_true] at hp
    obtain ⟨q, hq, hfq⟩ := List.mem_map.mp hp
    by_cases h1 : q.1 = k
    · left
      rw [← hfq]
      simp [h1]
    · right
      rw [← hfq]
      have h2 : (q.1 == k) = false := by simp [h1]
      simp only [h2, Bool.false_eq_true, if_false]
      exact hq
  · simp only [Bool.not_eq_true] at hany
    rw [if_neg (by simp [hany])] at hp
    rcases List.mem_append.mp hp with hp | hp
    · exact Or.inr hp
    · exact Or.inl (List.mem_singleton.mp hp)

theorem lookup_mem {α : Type} {m : List (String × α)} {k : String} {v : α}
    (h : m.lookup k = some v) : (k, v) ∈ m := by
  induction m with
  | nil => simp [List.lookup] at h
  | cons q rest ih =>
    obtain ⟨k', b⟩ := q
    rw [List.lookup_cons] at h
    cases hq : (k == k') with
    | true =>
      simp only [hq] at h
      obtain rfl : b = v := by injection h
      obtain rfl : k = k' := by simpa using hq
      exact List.mem_cons_self _ _
    | false =>
      simp only [hq] at h
      exact List.mem_cons_of_mem _ (ih h)

theorem lookup_append_left_none {α : Type} {m : List (String × α)}
    {k : String} (l : List (String × α)) (h : m.lookup k = none) :
    (m ++ l).lookup k = l.lookup k := by
  induction m with
  | nil => rfl
  | cons q rest ih =>
    obtain ⟨k', b⟩ := q
    rw [List.lookup_cons] at h
    cases hq : (k == k') with
    | true => simp [hq] at h
    | false =>
      simp only [hq] at h
      rw [List.cons_append, List.lookup_cons]
      simp only [hq]
      exact ih h

theorem lookup_map_replace {α : Type} {m : List (String × α)} {k : String}
    (v : α) (h : m.any (fun p => p.1 == k) = true) :
    (m.map (fun p => if p.1 == k then (k, v) else p)).lookup k = some v := by
  induction m with
  | nil => simp at h
  | cons q rest ih =>
    by_cases hq : q.1 = k
    · have h1 : (q.1 == k) = true := by simp [hq]
      simp only [List.map_cons, h1, if_true, List.lookup_cons, beq_self_eq_true]
    · have h1 : (q.1 == k) = false := by simp [hq]
      have h2 : rest.any (fun p => p.1 == k) = true := by
        rcases List.any_eq_true.mp h with ⟨p, hp, hpk⟩
        rcases List.mem_cons.mp hp with rfl | hp
        · rw [h1] at hpk; exact absurd hpk (by simp)
        · exact List.any_eq_true.mpr ⟨p, hp, hpk⟩
      have h3 : (k == q.1) = false := by
        simp only [beq_eq_false_iff_ne] at h1 ⊢
        exact fun hk => h1 hk.symm
      rw [List.map_cons, if_neg (by simp [h1]),
        show q = (q.1, q.2) from rfl, List.lookup_cons]
      simp only [h3]
      exact ih h2

theorem lookup_mapSet {α : Type} (m : List (String × α)) (k : String)
    (v : α) : (mapSet m k v).lookup k = some v := by
  unfold mapSet
  by_cases hany : m.any (fun p => p.1 == k) = true
  · simp only [hany, if_true]
    exact lookup_map_replace v hany
  · simp only [Bool.not_eq_true] at hany
    rw [if_neg (by simp [hany]),
      lookup_append_left_none _ (lookup_none_of_forall
        (any_key_eq_false_iff.mp hany)),
      List.lookup_cons]
    simp

/-! Helper lemmas about the injection engine's element bookkeeping. -/

theorem countKey_fresh_any {α : Type} {m : List (String × α)} {k : String}
    (h : countKey m k = 0) : m.any (fun p => p.1 == k) = false :=
  any_key_eq_false_iff.mpr (by
    intro p hp
    have := (List.countP_eq_zero.mp h) p hp
    simpa using this)

theorem countKey_mapSet_fresh {α : Type} {m : List (String × α)}
    {k : String} (v : α) (h : countKey m k = 0) :
    countKey (mapSet m k v) k = 1 := by
  rw [mapSet_of_fresh v (countKey_fresh_any h), countKey_append, h]
  simp [countKey, List.countP_cons]

theorem countKey_injectSnippet_self (els : List (String × InjectedElement))
    (s : Snippet) : countKey (injectSnippet els s) s.id = 1 := by
  have h0 : countKey (removeSnippet els s.id) s.id = 0 :=
    countKey_mapDelete_self els s.id
  cases hty : s.type <;>
    simp only [injectSnippet, hty] <;>
    exact countKey_mapSet_fresh _ h0

theorem countKey_injectSnippet_other (els : List (String × InjectedElement))
    (s : Snippet) {id : String} (h : id ≠ s.id) :
    countKey (injectSnippet els s) id = countKey els id := by
  have h1 : countKey (removeSnippet els s.id) id = countKey els id :=
    countKey_mapDelete_other els h
  cases hty : s.type <;>
    simp only [injectSnippet, hty] <;>
    rw [countKey_mapSet_other _ _ h, h1]

/-! Helper lemmas about the `snippets` field of each lifecycle
operation, and preservation of the timestamp invariant. -/

theorem addSnippet_fst_snippets (st : ManagerState) (inp : SnippetInput)
    (now : Nat) (rand : String) (sf : Bool) :
    (addSnippet st inp now rand sf).1.snippets =
      mapSet st.snippets (genId now rand)
        { id := genId now rand, name := inp.name, content := inp.content
          type := inp.type, enabled := inp.enabled, createdAt := now
          updatedAt := now } := by
  cases sf <;> cases hin : inp.enabled <;>
    simp [addSnippet, saveSnippets, hin]

theorem updateSnippet_none (st : ManagerState) (id : String)
    (u : SnippetUpdate) (now : Nat) (sf : Bool)
    (h : st.snippets.lookup id = none) :
    updateSnippet st id u now sf = (st, .error (.notFound id)) := by
  unfold updateSnippet
  rw [h]

theorem updateSnippet_some_snippets (st : ManagerState) (id : String)
    (u : SnippetUpdate) (now : Nat) (sf : Bool) (s : Snippet)
    (h : st.snippets.lookup id = some s) :
    (updateSnippet st id u now sf).1.snippets =
      mapSet st.snippets id (applyUpdate s u now) := by
  unfold updateSnippet
  rw [h]
  cases sf <;> cases he : (applyUpdate s u now).enabled <;>
    simp [saveSnippets, he]

theorem storeWF_addSnippet (st : ManagerState) (inp : SnippetInput)
    (now : Nat) (rand : String) (sf : Bool) (h : storeWF st) :
    storeWF (addSnippet st inp now rand sf).1 := by
  intro p hp
  rw [addSnippet_fst_snippets] at hp
  rcases mem_mapSet hp with rfl | hp
  · exact Nat.le_refl _
  · exact h p hp

theorem storeWF_updateSnippet (st : ManagerState) (id : String)
    (u : SnippetUpdate) (now : Nat) (sf : Bool) (h : storeWF st)
    (hnow : ∀ p ∈ st.snippets, p.2.createdAt ≤ now) :
    storeWF (updateSnippet st id u now sf).1 := by
  cases hl : st.snippets.lookup id with
  | none =>
    rw [updateSnippet_none _ _ _ _ _ hl]
    exact h
  | some s =>
    intro p hp
    rw [updateSnippet_some_snippets _ _ _ _ _ _ hl] at hp
    rcases mem_mapSet hp with rfl | hp
    · simpa [applyUpdate] using hnow _ (lookup_mem hl)
    · exact h p hp

theorem storeWF_toggleSnippet (st : ManagerState) (id : String) (now : Nat)
    (sf : Bool) (h : storeWF st)
    (hnow : ∀ p ∈ st.snippets, p.2.createdAt ≤ now) :
    storeWF (toggleSnippet st id now sf).1 := by
  unfold toggleSnippet
  cases hl : st.snippets.lookup id with
  | none => exact h
  | some s => exact storeWF_updateSnippet st id _ now sf h hnow

theorem importRecord_timesOK {c : ImportCandidate} (now : Nat)
    (rand : String) (k : Nat) (hc : candidateTimesOK c = true) :
    (importRecord c now rand k).createdAt ≤
      (importRecord c now rand k).updatedAt := by
  unfold candidateTimesOK at hc
  cases hca : c.createdAt <;> cases hcu : c.updatedAt <;>
    rw [hca, hcu] at hc <;>
    simp_all [importRecord, hca, hcu]

theorem importLoop_cons_some (st : ManagerState) (c : ImportCandidate)
    (rest : List ImportCandidate) (now : Nat) (rands : List String)
    (s f : Nat) (e : List String) (msg : String)
    (hce : candidateError c = some msg) :
    importLoop st (c :: rest) now rands s f e =
      importLoop st rest now rands s (f + 1)
        (e ++ ["Snippet \"" ++ jsNameOrUnknown c.name ++ "\": " ++ msg]) := by
  simp only [importLoop, hce]

theorem importLoop_cons_none (st : ManagerState) (c : ImportCandidate)
    (rest : List ImportCandidate) (now : Nat) (rands : List String)
    (s f : Nat) (e : List String) (hce : candidateError c = none) :
    importLoop st (c :: rest) now rands s f e =
      importLoop
        (if (importRecord c now (rands.headD "r") s).enabled then
          { st with
            snippets := mapSet st.snippets
              (importRecord c now (rands.headD "r") s).id
              (importRecord c now (rands.headD "r") s),
            injected := injectSnippet st.injected
              (importRecord c now (rands.headD "r") s) }
        else
          { st with
            snippets := mapSet st.snippets
              (importRecord c now (rands.headD "r") s).id
              (importRecord c now (rands.headD "r") s) })
        rest now rands.tail (s + 1) f e := by
  simp only [importLoop, hce]

theorem storeWF_importLoop (items : List ImportCandidate) :
    ∀ (st : ManagerState) (now : Nat) (rands : List String)
      (s f : Nat) (e : List String), storeWF st →
      (∀ c ∈ items, candidateTimesOK c = true) →
      storeWF (importLoop st items now rands s f e).1 := by
  induction items with
  | nil =>
    intro st _ _ _ _ _ h _
    exact h
  | cons c rest ih =>
    intro st now rands sacc f e h hts
    cases hce : candidateError c with
    | some msg =>
      rw [importLoop_cons_some st c rest now rands sacc f e msg hce]
      exact ih _ _ _ _ _ _ h (fun d hd => hts d (List.mem_cons_of_mem _ hd))
    | none =>
      rw [importLoop_cons_none st c rest now rands sacc f e hce]
      set r := importRecord c now (rands.headD "r") sacc with hr
      have hwf1 : ∀ inj, storeWF
          { st with snippets := mapSet st.snippets r.id r, injected := inj } := by
        intro inj p hp
        rcases mem_mapSet hp with rfl | hp
        · exact importRecord_timesOK now _ sacc (hts c (List.mem_cons_self _ _))
        · exact h p hp
      cases hen : r.enabled <;>
        simp only [hen, Bool.false_eq_true, if_false, if_true] <;>
        exact ih _ _ _ _ _ _ (hwf1 _)
          (fun d hd => hts d (List.mem_cons_of_mem _ hd))

theorem storeWF_importSnippets_array (st : ManagerState)
    (items : List ImportCandidate) (now : Nat) (rands : List String)
    (h : storeWF st) (hts : ∀ c ∈ items, candidateTimesOK c = true) :
    storeWF (importSnippets st (.array items) now rands).1 := by
  have hloop := storeWF_importLoop items st now rands 0 0 [] h hts
  unfold importSnippets
  dsimp only
  split
  · intro p hp
    exact hloop p hp
  · exact hloop

theorem storeWF_init (arr : List Snippet)
    (h : ∀ s ∈ arr, s.createdAt ≤ s.updatedAt) :
    storeWF (init (.parsed arr)) := by
  have main : ∀ (rest : List Snippet) (m : List (String × Snippet)),
      (∀ p ∈ m, p.2.createdAt ≤ p.2.updatedAt) →
      (∀ s ∈ rest, s.createdAt ≤ s.updatedAt) →
      ∀ p ∈ rest.foldl (fun m s => mapSet m s.id s) m,
        p.2.createdAt ≤ p.2.updatedAt := by
    intro rest
    induction rest with
    | nil =>
      intro m hm _ p hp
      exact hm p hp
    | cons a tail ih =>
      intro m hm ha p hp
      rw [List.foldl_cons] at hp
      refine ih _ ?_ (fun s hs => ha s (List.mem_cons_of_mem _ hs)) p hp
      intro q hq
      rcases mem_mapSet hq with rfl | hq
      · exact ha a (List.mem_cons_self _ _)
      · exact hm q hq
  intro p hp
  exact main arr [] (by simp) h p hp

/-! The count bookkeeping of the import loop. -/

theorem importLoop_counts (items : List ImportCandidate) :
    ∀ (st : ManagerState) (now : Nat) (rands : List String)
      (s f : Nat) (e : List String),
      (importLoop st items now rands s f e).2.1 =
        s + items.countP (fun c => (candidateError c).isNone) ∧
      (importLoop st items now rands s f e).2.2.1 =
        f + items.countP (fun c => (candidateError c).isSome) ∧
      (importLoop st items now rands s f e).2.2.2.length =
        e.length + items.countP (fun c => (candidateError c).isSome) := by
  induction items with
  | nil =>
    intros
    simp [importLoop]
  | cons c rest ih =>
    intro st now rands s f e
    cases hce : candidateError c with
    | some msg =>
      rw [importLoop_cons_some st c rest now rands s f e msg hce]
      obtain ⟨h1, h2, h3⟩ := ih st now rands s (f + 1)
        (e ++ ["Snippet \"" ++ jsNameOrUnknown c.name ++ "\": " ++ msg])
      refine ⟨?_, ?_, ?_⟩
      · rw [h1, List.countP_cons]
        simp [hce]
      · rw [h2, List.countP_cons]
        simp [hce]
        omega
      · rw [h3, List.countP_cons]
        simp [hce, List.length_append]
        omega
    | none =>
      rw [importLoop_cons_none st c rest now rands s f e hce]
      obtain ⟨h1, h2, h3⟩ := ih _ now rands.tail (s + 1) f e
      refine ⟨?_, ?_, ?_⟩
      · rw [h1, List.countP_cons]
        simp [hce]
        omega
      · rw [h2, List.countP_cons]
        simp [hce]
      · rw [h3, List.countP_cons]
        simp [hce]

/-! Round-trip machinery: importing the candidates obtained by
re-parsing an export. -/

theorem candidateError_toCandidate (s : Snippet) (hn : s.name ≠ "")
    (hc : s.content ≠ "") : candidateError (snippetToCandidate s) = none := by
  unfold candidateError snippetToCandidate jsFalsyStr
  cases hty : s.type <;> simp [SnippetType.toStr, hn, hc]

theorem importRecord_toCandidate (s : Snippet) (now : Nat) (rand : String)
    (k : Nat) :
    importRecord (snippetToCandidate s) now rand k =
      { id := genId now rand, name := s.name, content := s.content
        type := s.type, enabled := s.enabled, createdAt := s.createdAt
        updatedAt := s.updatedAt } := by
  unfold importRecord snippetToCandidate
  cases hty : s.type <;> simp [SnippetType.toStr, hty]

theorem importSnippets_array_fst (st : ManagerState)
    (items : List ImportCandidate) (now : Nat) (rands : List String) :
    (importSnippets st (.array items) now rands).1.snippets =
      (importLoop st items now rands 0 0 []).1.snippets := by
  unfold importSnippets
  dsimp only
  split <;> rfl

theorem importSnippets_array_snd (st : ManagerState)
    (items : List ImportCandidate) (now : Nat) (rands : List String) :
    (importSnippets st (.array items) now rands).2 =
      ⟨(importLoop st items now rands 0 0 []).2.1,
       (importLoop st items now rands 0 0 []).2.2.1,
       (importLoop st items now rands 0 0 []).2.2.2⟩ := by
  unfold importSnippets
  dsimp only

theorem importLoop_valid_snippets (cs : List ImportCandidate) :
    ∀ (st : ManagerState) (now : Nat) (rands : List String)
      (s f : Nat) (e : List String),
      (∀ c ∈ cs, candidateError c = none) →
      (∀ r ∈ importedRecords cs now rands s, st.snippets.lookup r.id = none) →
      ((importedRecords cs now rands s).map Snippet.id).Nodup →
      (importLoop st cs now rands s f e).1.snippets =
        st.snippets ++ (importedRecords cs now rands s).map (fun r => (r.id, r)) := by
  induction cs with
  | nil =>
    intros
    simp [importLoop, importedRecords]
  | cons c rest ih =>
    intro st now rands s f e hv hfresh hnodup
    rw [importLoop_cons_none st c rest now rands s f e
      (hv c (List.mem_cons_self _ _))]
    set r0 := importRecord c now (rands.headD "r") s with hr0
    have hrec : importedRecords (c :: rest) now rands s =
        r0 :: importedRecords rest now rands.tail (s + 1) := rfl
    have hfr0 : st.snippets.lookup r0.id = none := by
      refine hfresh r0 ?_
      rw [hrec]
      exact List.mem_cons_self _ _
    have hany : st.snippets.any (fun p => p.1 == r0.id) = false :=
      any_key_eq_false_iff.mpr (lookup_none_forall hfr0)
    have hset : mapSet st.snippets r0.id r0 = st.snippets ++ [(r0.id, r0)] :=
      mapSet_of_fresh _ hany
    have hnotmem : r0.id ∉ (importedRecords rest now rands.tail (s + 1)).map Snippet.id := by
      have := hnodup
      rw [hrec] at this
      exact (List.nodup_cons.mp (by simpa using this)).1
    have hfresh' : ∀ q ∈ importedRecords rest now rands.tail (s + 1),
        (st.snippets ++ [(r0.id, r0)]).lookup q.id = none := by
      intro q hq
      have h1 : st.snippets.lookup q.id = none := by
        refine hfresh q ?_
        rw [hrec]
        exact List.mem_cons_of_mem _ hq
      rw [lookup_append_left_none _ h1, List.lookup_cons]
      have hne : (q.id == r0.id) = false := by
        rw [beq_eq_false_iff_ne]
        intro hqe
        exact hnotmem (hqe ▸ List.mem_map_of_mem Snippet.id hq)
      simp [hne]
    have hnodup' : ((importedRecords rest now rands.tail (s + 1)).map Snippet.id).Nodup := by
      have := hnodup
      rw [hrec] at this
      exact (List.nodup_cons.mp (by simpa using this)).2
    have hvrest : ∀ d ∈ rest, candidateError d = none :=
      fun d hd => hv d (List.mem_cons_of_mem _ hd)
    cases hen : r0.enabled <;>
      simp only [hen, Bool.false_eq_true, if_false, if_true] <;>
      rw [ih _ now rands.tail (s + 1) f e hvrest
        (by simpa [hset] using hfresh') hnodup'] <;>
      simp [hset, hrec, List.append_assoc]

theorem importedRecords_toCandidate (ex : List Snippet) :
    ∀ (now : Nat) (rands : List String) (k : Nat),
      List.Forall₂ (fun s t => t.name = s.name ∧ t.content = s.content ∧
          t.type = s.type ∧ t.enabled = s.enabled ∧
          t.createdAt = s.createdAt ∧ t.updatedAt = s.updatedAt ∧
          ∃ rand, t.id = genId now rand)
        ex (importedRecords (ex.map snippetToCandidate) now rands k) := by
  induction ex with
  | nil =>
    intros
    exact List.Forall₂.nil
  | cons a rest ih =>
    intro now rands k
    rw [List.map_cons]
    show List.Forall₂ _ (a :: rest)
      (importRecord (snippetToCandidate a) now (rands.headD "r") k ::
        importedRecords (rest.map snippetToCandidate) now rands.tail (k + 1))
    refine List.Forall₂.cons ?_ (ih now rands.tail (k + 1))
    rw [importRecord_toCandidate]
    exact ⟨rfl, rfl, rfl, rfl, rfl, rfl, rands.headD "r", rfl⟩

theorem forall₂_imp_mem {α β : Type} {R S : α → β → Prop} :
    ∀ {l₁ : List α} {l₂ : List β}, List.Forall₂ R l₁ l₂ →
      (∀ a ∈ l₁, ∀ b ∈ l₂, R a b → S a b) → List.Forall₂ S l₁ l₂ := by
  intro l₁ l₂ h
  induction h with
  | nil =>
    intro
    exact .nil
  | cons hr _ ih =>
    intro hmem
    exact .cons
      (hmem _ (List.mem_cons_self _ _) _ (List.mem_cons_self _ _) hr)
      (ih fun a ha b hb =>
        hmem a (List.mem_cons_of_mem _ ha) b (List.mem_cons_of_mem _ hb))

theorem forall₂_map_eq {α β γ : Type} {R : α → β → Prop} (f : α → γ)
    (g : β → γ) : ∀ {l₁ : List α} {l₂ : List β}, List.Forall₂ R l₁ l₂ →
      (∀ a b, R a b → g b = f a) → l₂.map g = l₁.map f := by
  intro l₁ l₂ h himp
  induction h with
  | nil => rfl
  | cons hr _ ih => simp [himp _ _ hr, ih]

/-! Full characterizations of `addSnippet` and `updateSnippet` results. -/

theorem addSnippet_ok (st : ManagerState) (inp : SnippetInput) (now : Nat)
    (rand : String) :
    (addSnippet st inp now rand false).2 = .ok
      { id := genId now rand, name := inp.name, content := inp.content
        type := inp.type, enabled := inp.enabled, createdAt := now
        updatedAt := now } := by
  cases hin : inp.enabled <;> simp [addSnippet, saveSnippets, hin]

theorem updateSnippet_some_eq (st : ManagerState) (id : String)
    (u : SnippetUpdate) (now : Nat) (s : Snippet)
    (h : st.snippets.lookup id = some s) :
    updateSnippet st id u now false =
      ({ snippets := mapSet st.snippets id (applyUpdate s u now)
         injected :=
           if (applyUpdate s u now).enabled then
             injectSnippet st.injected (applyUpdate s u now)
           else
             removeSnippet st.injected id
         storage :=
           some ((mapSet st.snippets id (applyUpdate s u now)).map Prod.snd) },
       .ok (applyUpdate s u now)) := by
  unfold updateSnippet
  rw [h]
  cases he : (applyUpdate s u now).enabled <;> simp [saveSnippets, he]

/-! Claim theorems. -/

/-- C1 counterexample: `addSnippet` applies no validation.  The call
`add("", "body\x7b\x7d", "css", true)` does not fail — it returns the
new record — and the store grows from zero to one record, so the claimed
`ValidationError` with unchanged store size is false on the code. -/
theorem addSnippet_empty_name_succeeds :
    (addSnippet emptyState ⟨"", "body\x7b\x7d", SnippetType.css, true⟩
      1000 "abc" false).2.isOk = true ∧
    (addSnippet emptyState ⟨"", "body\x7b\x7d", SnippetType.css, true⟩
      1000 "abc" false).1.snippets.length = 1 ∧
    emptyState.snippets.length = 0 :=
  ⟨by decide, by decide, by decide⟩

/-- C1 (amended): `addSnippet` itself performs no emptiness validation —
it always succeeds, returning the new record, and grows the store by one
when the generated id is fresh; the empty-after-trimming check on name
and content is enforced by the UI dialog handler (`handleAdd`), which
refuses to call `addSnippet` and leaves the store unchanged. -/
theorem addSnippet_no_validation_ui_gate :
    (∀ (st : ManagerState) (inp : SnippetInput) (now : Nat) (rand : String),
      (addSnippet st inp now rand false).2 = .ok
        { id := genId now rand, name := inp.name, content := inp.content
          type := inp.type, enabled := inp.enabled, createdAt := now
          updatedAt := now }) ∧
    (∀ (st : ManagerState) (inp : SnippetInput) (now : Nat) (rand : String),
      st.snippets.lookup (genId now rand) = none →
      (addSnippet st inp now rand false).1.snippets.length =
        st.snippets.length + 1) ∧
    (∀ (st : ManagerState) (name content : String) (ty : SnippetType)
      (en : Bool) (now : Nat) (rand : String),
      (trimmedEmpty name || trimmedEmpty content) = true →
      handleAdd st name content ty en now rand = (st, false)) := by
  refine ⟨fun st inp now rand => addSnippet_ok st inp now rand,
    fun st inp now rand h => ?_, fun st name content ty en now rand h => ?_⟩
  · rw [addSnippet_fst_snippets,
      mapSet_of_fresh _ (any_key_eq_false_iff.mpr (lookup_none_forall h)),
      List.length_append]
    rfl
  · unfold handleAdd
    rw [h]
    simp

/-- C1 witness: the amended statement at concrete inputs — a fresh add
grows the empty store to one record, and `handleAdd` with a whitespace
name changes nothing. -/
theorem addSnippet_no_validation_ui_gate_witness :
    (addSnippet emptyState ⟨"n", "c", SnippetType.css, false⟩ 5 "r"
      false).1.snippets.length = emptyState.snippets.length + 1 ∧
    handleAdd emptyState "  " "x" SnippetType.css false 5 "r" =
      (emptyState, false) :=
  ⟨addSnippet_no_validation_ui_gate.2.1 emptyState
      ⟨"n", "c", SnippetType.css, false⟩ 5 "r" (by decide),
   addSnippet_no_validation_ui_gate.2.2 emptyState "  " "x" SnippetType.css
      false 5 "r" (by decide)⟩

/-- C2 counterexample: the code `document.body.style.color` carries a
DOM keyword, yet with `readyState` equal to `complete` it is executed
immediately and synchronously — not scheduled for the next
paint/microtask as the claim states for every non-`loading` state. -/
theorem dom_dependent_complete_immediate :
    checkIfNeedsDOMReady "document.body.style.color = 1" = true ∧
    jsExecutionTiming "document.body.style.color = 1" ReadyState.complete =
      ExecTiming.immediate :=
  ⟨by decide, by decide⟩

/-- C2 (amended): a snippet whose code carries a DOM keyword waits for
`DOMContentLoaded` while the document is loading, is executed
immediately and synchronously when `readyState` is `complete`, and is
scheduled via `requestAnimationFrame` in the remaining (`interactive`)
state; a snippet without DOM keywords always executes immediately and
synchronously. -/
theorem jsExecutionTiming_policy (code : String) :
    (checkIfNeedsDOMReady code = true →
      jsExecutionTiming code ReadyState.loading =
        ExecTiming.onDOMContentLoaded ∧
      jsExecutionTiming code ReadyState.complete = ExecTiming.immediate ∧
      jsExecutionTiming code ReadyState.interactive =
        ExecTiming.nextAnimationFrame) ∧
    (checkIfNeedsDOMReady code = false →
      ∀ rs, jsExecutionTiming code rs = ExecTiming.immediate) := by
  constructor
  · intro h
    unfold jsExecutionTiming
    rw [h]
    exact ⟨rfl, rfl, rfl⟩
  · intro h rs
    unfold jsExecutionTiming
    rw [h]
    cases rs <;> rfl

/-- C2 witness: the timing policy at two concrete snippets, one with a
DOM keyword and one without. -/
theorem jsExecutionTiming_policy_witness :
    (jsExecutionTiming "document.body.remove()" ReadyState.loading =
        ExecTiming.onDOMContentLoaded ∧
      jsExecutionTiming "document.body.remove()" ReadyState.complete =
        ExecTiming.immediate ∧
      jsExecutionTiming "document.body.remove()" ReadyState.interactive =
        ExecTiming.nextAnimationFrame) ∧
    jsExecutionTiming "1 + 1" ReadyState.loading = ExecTiming.immediate :=
  ⟨(jsExecutionTiming_policy "document.body.remove()").1 (by decide),
   (jsExecutionTiming_policy "1 + 1").2 (by decide) ReadyState.loading⟩

/-- C5 counterexample: a candidate whose `name` field is present but the
empty string — nothing is missing and its kind is `"css"` — still fails
the per-item validation, so per-item failure is not confined to missing
fields or invalid kinds. -/
theorem import_empty_name_fails_item :
    (importSnippets emptyState
      (.array [{ name := some "", content := some "x",
                 type := some "css" }]) 50 ["r"]).2 =
      ⟨0, 1, ["Snippet \"unknown\": Invalid snippet: missing required fields"]⟩ :=
  by decide

/-- C5 (amended): import fails per-item exactly for candidates whose
`name`, `content`, or `type` is missing or the empty string (JS-falsy),
or whose `type` is neither `"css"` nor `"js"`; the summary counts valid
and invalid items and carries one error message per failed item; every
top-level parse failure yields zero successes and exactly one error
entry. -/
theorem importSnippets_error_accounting :
    (∀ (st : ManagerState) (items : List ImportCandidate) (now : Nat)
      (rands : List String),
      (importSnippets st (.array items) now rands).2.success =
        items.countP (fun c => (candidateError c).isNone) ∧
      (importSnippets st (.array items) now rands).2.failed =
        items.countP (fun c => (candidateError c).isSome) ∧
      (importSnippets st (.array items) now rands).2.errors.length =
        items.countP (fun c => (candidateError c).isSome)) ∧
    (∀ c : ImportCandidate, (candidateError c).isSome = true ↔
      (jsFalsyStr c.name = true ∨ jsFalsyStr c.content = true ∨
       jsFalsyStr c.type = true ∨
       (c.type ≠ some "css" ∧ c.type ≠ some "js"))) ∧
    (∀ (st : ManagerState) (msg : String) (now : Nat) (rands : List String),
      importSnippets st (.parseFailure msg) now rands =
        (st, ⟨0, 1, [msg]⟩)) ∧
    (∀ (st : ManagerState) (lp : Option Nat) (now : Nat)
      (rands : List String),
      (importSnippets st (.notArray lp) now rands).2.success = 0 ∧
      (importSnippets st (.notArray lp) now rands).2.errors =
        ["Invalid file format: expected an array of snippets"]) := by
  refine ⟨fun st items now rands => ?_, fun c => ?_,
    fun st msg now rands => rfl, fun st lp now rands => ⟨rfl, rfl⟩⟩
  · obtain ⟨h1, h2, h3⟩ := importLoop_counts items st now rands 0 0 []
    rw [importSnippets_array_snd]
    refine ⟨?_, ?_, ?_⟩
    · dsimp only
      rw [h1]
      omega
    · dsimp only
      rw [h2]
      omega
    · dsimp only
      rw [h3]
      simp
  · unfold candidateError
    by_cases h1 :
        (jsFalsyStr c.name || jsFalsyStr c.content || jsFalsyStr c.type) = true
    · rw [if_pos h1]
      simp only [Option.isSome_some, true_iff]
      rcases Bool.or_eq_true_iff.mp h1 with h | h
      · rcases Bool.or_eq_true_iff.mp h with h | h
        · exact Or.inl h
        · exact Or.inr (Or.inl h)
      · exact Or.inr (Or.inr (Or.inl h))
    · have h1' := h1
      simp only [Bool.or_eq_true, not_or, Bool.not_eq_true] at h1'
      rw [if_neg h1]
      by_cases h2 : c.type ≠ some "css" ∧ c.type ≠ some "js"
      · rw [if_pos h2]
        simp only [Option.isSome_some, true_iff]
        exact Or.inr (Or.inr (Or.inr h2))
      · rw [if_neg h2]
        simp only [Option.isSome_none, Bool.false_eq_true, false_iff, not_or]
        exact ⟨by simp [h1'.1.1], by simp [h1'.1.2], by simp [h1'.2], h2⟩

/-- C6 (confirmed): `updateSnippet` on an unknown id fails with the
not-found error and changes nothing; on a known id it merges the partial
fields, forces `updatedAt` to the current time while keeping `id` and
`createdAt`, stores the merged record, writes the full collection
through, and unconditionally re-evaluates injection — injecting when the
merged record is enabled and removing the tracked element otherwise. -/
theorem updateSnippet_contract :
    (∀ (st : ManagerState) (id : String) (u : SnippetUpdate) (now : Nat)
      (sf : Bool), st.snippets.lookup id = none →
      updateSnippet st id u now sf = (st, .error (.notFound id))) ∧
    (∀ (st : ManagerState) (id : String) (u : SnippetUpdate) (now : Nat)
      (s : Snippet), st.snippets.lookup id = some s →
      (updateSnippet st id u now false).2 = .ok (applyUpdate s u now) ∧
      (applyUpdate s u now).updatedAt = now ∧
      (applyUpdate s u now).createdAt = s.createdAt ∧
      (updateSnippet st id u now false).1.snippets.lookup id =
        some (applyUpdate s u now) ∧
      (updateSnippet st id u now false).1.storage =
        some ((updateSnippet st id u now false).1.snippets.map Prod.snd) ∧
      (updateSnippet st id u now false).1.injected =
        (if (applyUpdate s u now).enabled then
          injectSnippet st.injected (applyUpdate s u now)
        else
          removeSnippet st.injected id)) := by
  refine ⟨fun st id u now sf h => updateSnippet_none st id u now sf h,
    fun st id u now s h => ?_⟩
  rw [updateSnippet_some_eq st id u now s h]
  exact ⟨rfl, rfl, rfl, lookup_mapSet _ _ _, rfl, rfl⟩

/-- C6 witness: the contract at a concrete store — an unknown id
errors, and a content edit of an enabled record is stored and
re-injected. -/
theorem updateSnippet_contract_witness :
    updateSnippet emptyState "x" { content := some "q" } 9 false =
      (emptyState, .error (.notFound "x")) ∧
    (updateSnippet
      ⟨[("i1", ⟨"i1", "a", "x", SnippetType.css, true, 3, 3⟩)], [], none⟩
      "i1" { content := some "q" } 9 false).2 =
      .ok (applyUpdate ⟨"i1", "a", "x", SnippetType.css, true, 3, 3⟩
        { content := some "q" } 9) :=
  ⟨updateSnippet_contract.1 emptyState "x" { content := some "q" } 9 false
      (by decide),
   (updateSnippet_contract.2
      ⟨[("i1", ⟨"i1", "a", "x", SnippetType.css, true, 3, 3⟩)], [], none⟩
      "i1" { content := some "q" } 9
      ⟨"i1", "a", "x", SnippetType.css, true, 3, 3⟩ (by decide)).1⟩

/-- C7 (confirmed): when the persistence write fails during
`updateSnippet` of an existing record, the error propagates to the
caller, while the in-memory store already holds the merged record; the
persisted blob and the injected elements are untouched (no rollback, no
injection). -/
theorem updateSnippet_persist_failure (st : ManagerState) (id : String)
    (u : SnippetUpdate) (now : Nat) (s : Snippet)
    (h : st.snippets.lookup id = some s) :
    (updateSnippet st id u now true).2 = .error .persistence ∧
    (updateSnippet st id u now true).1.snippets.lookup id =
      some (applyUpdate s u now) ∧
    (updateSnippet st id u now true).1.storage = st.storage ∧
    (updateSnippet st id u now true).1.injected = st.injected := by
  unfold updateSnippet
  rw [h]
  exact ⟨rfl, lookup_mapSet _ _ _, rfl, rfl⟩

/-- C7 witness: the persistence-failure behavior at a concrete store. -/
theorem updateSnippet_persist_failure_witness :
    (updateSnippet
      ⟨[("i1", ⟨"i1", "a", "x", SnippetType.css, true, 3, 3⟩)], [], none⟩
      "i1" { content := some "q" } 9 true).2 =
      .error .persistence ∧
    (updateSnippet
      ⟨[("i1", ⟨"i1", "a", "x", SnippetType.css, true, 3, 3⟩)], [], none⟩
      "i1" { content := some "q" } 9 true).1.snippets.lookup "i1" =
      some (applyUpdate ⟨"i1", "a", "x", SnippetType.css, true, 3, 3⟩
        { content := some "q" } 9) ∧
    (updateSnippet
      ⟨[("i1", ⟨"i1", "a", "x", SnippetType.css, true, 3, 3⟩)], [], none⟩
      "i1" { content := some "q" } 9 true).1.storage = none ∧
    (updateSnippet
      ⟨[("i1", ⟨"i1", "a", "x", SnippetType.css, true, 3, 3⟩)], [], none⟩
      "i1" { content := some "q" } 9 true).1.injected = [] :=
  updateSnippet_persist_failure
    ⟨[("i1", ⟨"i1", "a", "x", SnippetType.css, true, 3, 3⟩)], [], none⟩
    "i1" { content := some "q" } 9
    ⟨"i1", "a", "x", SnippetType.css, true, 3, 3⟩ (by decide)

/-- C8 (confirmed): injection leaves exactly one tracked element for the
snippet's id — also after injecting twice in a row — and never touches
the count tracked for any other id, because it always removes the prior
element for that id before attaching the new one. -/
theorem injectSnippet_idempotent (els : List (String × InjectedElement))
    (s : Snippet) :
    countKey (injectSnippet els s) s.id = 1 ∧
    countKey (injectSnippet (injectSnippet els s) s) s.id = 1 ∧
    ∀ id, id ≠ s.id → countKey (injectSnippet els s) id = countKey els id :=
  ⟨countKey_injectSnippet_self els s,
   countKey_injectSnippet_self (injectSnippet els s) s,
   fun _ h => countKey_injectSnippet_other els s h⟩

/-- C8 witness: double injection at a concrete element map and record. -/
theorem injectSnippet_idempotent_witness :
    countKey (injectSnippet (injectSnippet []
      ⟨"i1", "a", "x", SnippetType.css, true, 3, 3⟩)
      ⟨"i1", "a", "x", SnippetType.css, true, 3, 3⟩) "i1" = 1 ∧
    countKey (injectSnippet []
      ⟨"i1", "a", "x", SnippetType.css, true, 3, 3⟩) "other" =
      countKey ([] : List (String × InjectedElement)) "other" :=
  ⟨(injectSnippet_idempotent []
      ⟨"i1", "a", "x", SnippetType.css, true, 3, 3⟩).2.1,
   (injectSnippet_idempotent []
      ⟨"i1", "a", "x", SnippetType.css, true, 3, 3⟩).2.2 "other" (by decide)⟩

/-- C9 (confirmed): for every store contents — whatever the map's
insertion or iteration order — `getAllSnippets` returns a permutation of
the stored records that is sorted by ascending `createdAt` with ties
broken by ascending `updatedAt`. -/
theorem getAllSnippets_sorted (st : ManagerState) :
    List.Sorted (fun a b : Snippet => a.createdAt < b.createdAt ∨
      (a.createdAt = b.createdAt ∧ a.updatedAt ≤ b.updatedAt))
      (getAllSnippets st) ∧
    (getAllSnippets st).Perm (st.snippets.map Prod.snd) :=
  ⟨List.sorted_insertionSort snippetOrder _,
   List.perm_insertionSort snippetOrder _⟩

/-- C10 (confirmed): deleting an id absent from the store resolves
without any error — no not-found check exists — leaves the record set
unchanged and the tracked elements unchanged (nothing is tracked for an
absent id), yet still writes the full collection through to
persistence. -/
theorem deleteSnippet_absent_ok (st : ManagerState) (id : String)
    (h : st.snippets.lookup id = none) :
    (deleteSnippet st id false).2 = .ok () ∧
    (deleteSnippet st id false).1.snippets = st.snippets ∧
    (deleteSnippet st id false).1.storage =
      some (st.snippets.map Prod.snd) ∧
    (countKey st.injected id = 0 →
      (deleteSnippet st id false).1.injected = st.injected) := by
  have hdel : mapDelete st.snippets id = st.snippets := by
    rw [mapDelete, List.filter_eq_self]
    intro p hp
    simp [lookup_none_forall h p hp]
  unfold deleteSnippet
  refine ⟨rfl, ?_, ?_, fun h0 => ?_⟩
  · simp [saveSnippets, hdel]
  · simp [saveSnippets, hdel]
  · have hrm : removeSnippet st.injected id = st.injected := by
      rw [removeSnippet, mapDelete, List.filter_eq_self]
      intro p hp
      have := List.countP_eq_zero.mp h0 p hp
      simpa using this
    simp [saveSnippets, hrm]

/-- C10 witness: deleting an unknown id from a concrete one-record store
succeeds, keeps the record, and persists the collection. -/
theorem deleteSnippet_absent_ok_witness :
    (deleteSnippet
      ⟨[("i1", ⟨"i1", "a", "x", SnippetType.css, false, 3, 3⟩)], [], none⟩
      "nope" false).2 = .ok () ∧
    (deleteSnippet
      ⟨[("i1", ⟨"i1", "a", "x", SnippetType.css, false, 3, 3⟩)], [], none⟩
      "nope" false).1.snippets =
      [("i1", ⟨"i1", "a", "x", SnippetType.css, false, 3, 3⟩)] ∧
    (deleteSnippet
      ⟨[("i1", ⟨"i1", "a", "x", SnippetType.css, false, 3, 3⟩)], [], none⟩
      "nope" false).1.injected = [] := by
  obtain ⟨h1, h2, h3, h4⟩ := deleteSnippet_absent_ok
    ⟨[("i1", ⟨"i1", "a", "x", SnippetType.css, false, 3, 3⟩)], [], none⟩
    "nope" (by decide)
  exact ⟨h1, h2, h4 (by decide)⟩

/-- C3 counterexample: importing a candidate carrying
`createdAt = 1000` and `updatedAt = 5` stores those timestamps verbatim,
producing a record with `updatedAt < createdAt` — import does not
establish the invariant. -/
theorem import_timestamps_violate_invariant :
    ((importSnippets emptyState
      (.array [{ name := some "a", content := some "b", type := some "css",
                 createdAt := some 1000, updatedAt := some 5 }])
      50 ["r"]).1.snippets.map
        (fun p => (p.2.createdAt, p.2.updatedAt))) = [(1000, 5)] ∧
    ¬ storeWF (importSnippets emptyState
      (.array [{ name := some "a", content := some "b", type := some "css",
                 createdAt := some 1000, updatedAt := some 5 }])
      50 ["r"]).1 :=
  ⟨by decide, by decide⟩

/-- C3 (amended): `updatedAt >= createdAt` is established by
`addSnippet` (both equal `now`), preserved by `updateSnippet` and
`toggleSnippet` provided the current time is at least each stored
record's `createdAt`, preserved by `importSnippets` for candidates that
either omit both timestamps or carry consistent ones (file timestamps
are kept verbatim), and holds after `init` when the loaded records
satisfy it. -/
theorem timestamp_invariant_preservation :
    (∀ (st : ManagerState) (inp : SnippetInput) (now : Nat) (rand : String)
      (sf : Bool), storeWF st → storeWF (addSnippet st inp now rand sf).1) ∧
    (∀ (st : ManagerState) (id : String) (u : SnippetUpdate) (now : Nat)
      (sf : Bool), storeWF st → (∀ p ∈ st.snippets, p.2.createdAt ≤ now) →
      storeWF (updateSnippet st id u now sf).1) ∧
    (∀ (st : ManagerState) (id : String) (now : Nat) (sf : Bool),
      storeWF st → (∀ p ∈ st.snippets, p.2.createdAt ≤ now) →
      storeWF (toggleSnippet st id now sf).1) ∧
    (∀ (st : ManagerState) (items : List ImportCandidate) (now : Nat)
      (rands : List String), storeWF st →
      (∀ c ∈ items, candidateTimesOK c = true) →
      storeWF (importSnippets st (.array items) now rands).1) ∧
    (∀ arr : List Snippet, (∀ s ∈ arr, s.createdAt ≤ s.updatedAt) →
      storeWF (init (.parsed arr))) :=
  ⟨storeWF_addSnippet, storeWF_updateSnippet, storeWF_toggleSnippet,
   storeWF_importSnippets_array, storeWF_init⟩

/-- C3 witness: the invariant at concrete inputs for each operation. -/
theorem timestamp_invariant_preservation_witness :
    storeWF (addSnippet emptyState ⟨"n", "c", SnippetType.css, false⟩
      7 "r" false).1 ∧
    storeWF (updateSnippet
      ⟨[("i1", ⟨"i1", "a", "x", SnippetType.css, false, 3, 4⟩)], [], none⟩
      "i1" { content := some "q" } 9 false).1 ∧
    storeWF (toggleSnippet
      ⟨[("i1", ⟨"i1", "a", "x", SnippetType.css, false, 3, 4⟩)], [], none⟩
      "i1" 9 false).1 ∧
    storeWF (importSnippets emptyState
      (.array [{ name := some "a", content := some "b",
                 type := some "css" }]) 7 ["r"]).1 ∧
    storeWF (init (.parsed [⟨"i1", "a", "x", SnippetType.css, false, 3, 4⟩])) :=
  ⟨timestamp_invariant_preservation.1 emptyState
      ⟨"n", "c", SnippetType.css, false⟩ 7 "r" false (by decide),
   timestamp_invariant_preservation.2.1
      ⟨[("i1", ⟨"i1", "a", "x", SnippetType.css, false, 3, 4⟩)], [], none⟩
      "i1" { content := some "q" } 9 false (by decide) (by decide),
   timestamp_invariant_preservation.2.2.1
      ⟨[("i1", ⟨"i1", "a", "x", SnippetType.css, false, 3, 4⟩)], [], none⟩
      "i1" 9 false (by decide) (by decide),
   timestamp_invariant_preservation.2.2.2.1 emptyState
      [{ name := some "a", content := some "b", type := some "css" }]
      7 ["r"] (by decide) (by decide),
   timestamp_invariant_preservation.2.2.2.2
      [⟨"i1", "a", "x", SnippetType.css, false, 3, 4⟩] (by decide)⟩

/-- C4 counterexample: for a store holding two records with equal
`createdAt`, export followed by import into a fresh store succeeds for
both records but keeps the tied `createdAt` values, so the imported
`createdAt` ordering is not strictly increasing. -/
theorem roundTrip_tied_createdAt_not_strict :
    (importSnippets emptyState
      (.array ((exportSnippets
        ⟨[("i1", ⟨"i1", "a", "x", SnippetType.css, false, 5, 5⟩),
          ("i2", ⟨"i2", "b", "y", SnippetType.css, false, 5, 5⟩)], [],
         none⟩).map snippetToCandidate)) 50 ["r1", "r2"]).2.success = 2 ∧
    ¬ ((((importSnippets emptyState
      (.array ((exportSnippets
        ⟨[("i1", ⟨"i1", "a", "x", SnippetType.css, false, 5, 5⟩),
          ("i2", ⟨"i2", "b", "y", SnippetType.css, false, 5, 5⟩)], [],
         none⟩).map snippetToCandidate)) 50
        ["r1", "r2"]).1.snippets.map Prod.snd).map
          Snippet.createdAt).Pairwise (· < ·)) :=
  ⟨by decide, by decide⟩

/-- C4 (amended): exporting the record set and importing it into a fresh
store succeeds for every record when names and contents are non-empty,
yielding per original record — in order — an imported record with
identical name, content, kind, enabled flag and timestamps and a freshly
generated id; the imported `createdAt` sequence equals the exported one,
so the ordering matches the original relative order and is strictly
increasing whenever the original `createdAt` values are pairwise
distinct; every imported id differs from every original id whenever the
generated ids avoid the originals. -/
theorem export_import_roundTrip (st : ManagerState) (now : Nat)
    (rands : List String)
    (hne : ∀ s ∈ exportSnippets st, s.name ≠ "" ∧ s.content ≠ "")
    (hnodup : ((importedRecords ((exportSnippets st).map snippetToCandidate)
      now rands 0).map Snippet.id).Nodup) :
    (importSnippets emptyState
      (.array ((exportSnippets st).map snippetToCandidate))
      now rands).2.success = (exportSnippets st).length ∧
    (importSnippets emptyState
      (.array ((exportSnippets st).map snippetToCandidate))
      now rands).2.failed = 0 ∧
    (importSnippets emptyState
      (.array ((exportSnippets st).map snippetToCandidate))
      now rands).2.errors = [] ∧
    List.Forall₂ (fun s t => t.name = s.name ∧ t.content = s.content ∧
        t.type = s.type ∧ t.enabled = s.enabled ∧
        t.createdAt = s.createdAt ∧ t.updatedAt = s.updatedAt ∧
        ∃ rand, t.id = genId now rand)
      (exportSnippets st)
      ((importSnippets emptyState
        (.array ((exportSnippets st).map snippetToCandidate))
        now rands).1.snippets.map Prod.snd) ∧
    (((exportSnippets st).map Snippet.createdAt).Pairwise (· ≠ ·) →
      ((((importSnippets emptyState
        (.array ((exportSnippets st).map snippetToCandidate))
        now rands).1.snippets.map Prod.snd).map
          Snippet.createdAt).Pairwise (· < ·))) ∧
    ((∀ s ∈ exportSnippets st,
        ∀ t ∈ importedRecords ((exportSnippets st).map snippetToCandidate)
          now rands 0, s.id ≠ t.id) →
      List.Forall₂ (fun s t => t.id ≠ s.id) (exportSnippets st)
        ((importSnippets emptyState
          (.array ((exportSnippets st).map snippetToCandidate))
          now rands).1.snippets.map Prod.snd)) := by
  set ex := exportSnippets st with hex
  set cands := ex.map snippetToCandidate with hcands
  have hvalid : ∀ c ∈ cands, candidateError c = none := by
    intro c hc
    rw [hcands] at hc
    obtain ⟨s, hs, rfl⟩ := List.mem_map.mp hc
    exact candidateError_toCandidate s (hne s hs).1 (hne s hs).2
  have hfresh : ∀ r ∈ importedRecords cands now rands 0,
      emptyState.snippets.lookup r.id = none := fun r _ => rfl
  have hsnips := importLoop_valid_snippets cands emptyState now rands 0 0 []
    hvalid hfresh hnodup
  have hvals : (importSnippets emptyState (.array cands)
      now rands).1.snippets.map Prod.snd = importedRecords cands now rands 0 := by
    rw [importSnippets_array_fst, hsnips]
    simp [emptyState, List.map_map, Function.comp_def]
  have hfa0 := importedRecords_toCandidate ex now rands 0
  have hcounts := importLoop_counts cands emptyState now rands 0 0 []
  have hsucc : cands.countP (fun c => (candidateError c).isNone) =
      cands.length :=
    List.countP_eq_length.mpr (fun c hc => by rw [hvalid c hc]; rfl)
  have hfail : cands.countP (fun c => (candidateError c).isSome) = 0 :=
    List.countP_eq_zero.mpr (fun c hc => by rw [hvalid c hc]; simp)
  have hsnd := importSnippets_array_snd emptyState cands now rands
  refine ⟨?_, ?_, ?_, ?_, ?_, ?_⟩
  · rw [hsnd]
    dsimp only
    rw [hcounts.1, hsucc, hcands, List.length_map]
    exact Nat.zero_add _
  · rw [hsnd]
    dsimp only
    rw [hcounts.2.1, hfail]
  · rw [hsnd]
    dsimp only
    have hlen := hcounts.2.2
    rw [hfail] at hlen
    simp only [List.length_nil, Nat.add_zero] at hlen
    exact List.length_eq_zero.mp hlen
  · rw [hvals]
    exact hfa0
  · intro hdist
    rw [hvals]
    have hmapeq : (importedRecords cands now rands 0).map Snippet.createdAt =
        ex.map Snippet.createdAt :=
      forall₂_map_eq Snippet.createdAt Snippet.createdAt hfa0
        (fun _ _ hr => hr.2.2.2.2.1)
    rw [hmapeq]
    have hsorted : List.Pairwise snippetOrder ex := by
      rw [hex]
      exact List.sorted_insertionSort snippetOrder _
    have h1 : List.Pairwise
        (fun a b : Snippet => a.createdAt ≤ b.createdAt) ex :=
      hsorted.imp (fun hab => by unfold snippetOrder at hab; omega)
    have h2 : List.Pairwise
        (fun a b : Snippet => a.createdAt ≠ b.createdAt) ex :=
      List.pairwise_map.mp hdist
    exact List.pairwise_map.mpr
      ((h1.and h2).imp (fun h => lt_of_le_of_ne h.1 h.2))
  · intro hid
    rw [hvals]
    exact forall₂_imp_mem hfa0 (fun a ha b hb _ => (hid a ha b hb).symm)

/-- C4 witness: the round trip at a concrete two-record store with
distinct timestamps. -/
theorem export_import_roundTrip_witness :
    (importSnippets emptyState
      (.array ((exportSnippets
        ⟨[("a1", ⟨"a1", "one", "x", SnippetType.css, true, 3, 3⟩),
          ("a2", ⟨"a2", "two", "y", SnippetType.js, false, 7, 8⟩)], [],
         none⟩).map snippetToCandidate)) 50 ["r1", "r2"]).2.success =
      (exportSnippets
        ⟨[("a1", ⟨"a1", "one", "x", SnippetType.css, true, 3, 3⟩),
          ("a2", ⟨"a2", "two", "y", SnippetType.js, false, 7, 8⟩)], [],
         none⟩).length ∧
    ((((importSnippets emptyState
      (.array ((exportSnippets
        ⟨[("a1", ⟨"a1", "one", "x", SnippetType.css, true, 3, 3⟩),
          ("a2", ⟨"a2", "two", "y", SnippetType.js, false, 7, 8⟩)], [],
         none⟩).map snippetToCandidate)) 50
        ["r1", "r2"]).1.snippets.map Prod.snd).map
          Snippet.createdAt).Pairwise (· < ·)) ∧
    List.Forall₂ (fun s t => t.id ≠ s.id)
      (exportSnippets
        ⟨[("a1", ⟨"a1", "one", "x", SnippetType.css, true, 3, 3⟩),
          ("a2", ⟨"a2", "two", "y", SnippetType.js, false, 7, 8⟩)], [],
         none⟩)
      ((importSnippets emptyState
        (.array ((exportSnippets
          ⟨[("a1", ⟨"a1", "one", "x", SnippetType.css, true, 3, 3⟩),
            ("a2", ⟨"a2", "two", "y", SnippetType.js, false, 7, 8⟩)], [],
           none⟩).map snippetToCandidate)) 50
        ["r1", "r2"]).1.snippets.map Prod.snd) := by
  obtain ⟨h1, _, _, _, h5, h6⟩ := export_import_roundTrip
    ⟨[("a1", ⟨"a1", "one", "x", SnippetType.css, true, 3, 3⟩),
      ("a2", ⟨"a2", "two", "y", SnippetType.js, false, 7, 8⟩)], [], none⟩
    50 ["r1", "r2"] (by decide) (by decide)
  exact ⟨h1, h5 (by decide), h6 (by decide)⟩

end OrcaSnippets
